import Mathlib

/-!
Shallow embedding of the two solver façades of the repository
(`lprog` in LP/LP_final.ipynb and `mip` in MIP/MIP_final.ipynb).

Both Python functions translate a dense coefficient matrix into the
sparse (index list, value list) pairs of the cplex Python API, build a
maximize model with all-"L" constraint senses, optionally silence the
four diagnostic streams, then run
  try: solve(); optional write of the model file; read values/objective
  except CplexError: print and return ([], -1).

Real numbers are modelled by `ℚ`.  The external cplex engine is a black
box: its solve behaviour is a parameter (`Engine`), while the documented
argument-length validation of `variables.add` / `linear_constraints.add`
is embedded concretely.  Side effects (stream suppression, the solve
call, the model-file write, printed text) are recorded in an event trace.
-/

/-- Exception classes that can cross the façade boundary.
`indexError` models Python's `IndexError` (raised by `len(A[0])` on an
empty matrix); `cplexError` models `cplex.exceptions.CplexError`, the
only class the source's `except` clause catches.
`shapeError` and `typeTagError` are modelled from the spec: the spec's
§7 error taxonomy names `ShapeError` and `TypeTagError`, but the source
defines no such classes; the constructors exist here only so that
statements can compare what the code raises against the spec's taxonomy. -/
inductive Exn where
  | indexError : Exn
  | cplexError : String → Exn
  | shapeError : Exn
  | typeTagError : Exn
deriving DecidableEq, Repr

/-- Whether an exception is of the `CplexError` class (the class the
source's `except CplexError` clause matches). -/
def Exn.isCplexError : Exn → Bool
  | .cplexError _ => true
  | _ => false

/-- A solver-facing model, with the exact fields the source hands to the
engine: maximize sense, generated column names, objective/bound vectors,
optional per-variable type tags (`types=varType`, mip only), sparse
constraint rows as (index list, value list) pairs, the joined senses
string, and the right-hand sides. -/
structure Model where
  maximize : Bool
  colnames : List String
  obj : List ℚ
  ub : List ℚ
  lb : List ℚ
  types : Option (List Char)
  linExpr : List (List Nat × List ℚ)
  senses : List Char
  rhs : List ℚ
deriving DecidableEq, Repr

/-- Observable side effects of one façade call, in order of occurrence:
the four diagnostic-stream suppressions, the engine solve call (carrying
the model handed to the engine), the model-file write, printed text. -/
inductive Event where
  | suppressLog : Event
  | suppressError : Event
  | suppressWarning : Event
  | suppressResults : Event
  | solveCall : Model → Event
  | fileWrite : String → Event
  | printed : String → Event
deriving DecidableEq, Repr

/-- Events that are pure diagnostics (stream suppression and printed
text), as opposed to the solve call and the model-file write. -/
def Event.isDiagnostic : Event → Bool
  | .suppressLog => true
  | .suppressError => true
  | .suppressWarning => true
  | .suppressResults => true
  | .printed _ => true
  | _ => false

/-- Outcome of a Python call: a normal return or an uncaught exception. -/
inductive PyResult (α : Type) where
  | ok : α → PyResult α
  | raise : Exn → PyResult α
deriving DecidableEq, Repr

/-- A façade run: the returned value (or uncaught exception) together
with the trace of observable side effects. -/
structure RunOut where
  result : PyResult (List ℚ × ℚ)
  trace : List Event
deriving DecidableEq, Repr

/-- The external engine, black box per the spec: whether `solve()`
raises (and which exception), and the solution the engine reports —
`none` models the engine raising `CplexError` ("No solution exists")
when `solution.get_values()` is read on an unsolved model. -/
structure Engine where
  solveExn : Model → Option Exn
  solution : Model → Option (List ℚ × ℚ)

/-- The variable type characters the cplex engine accepts
(continuous, binary, integer, semi-continuous, semi-integer). -/
def cplexTypeChars : List Char := ['C', 'B', 'I', 'S', 'N']

/-- Argument validation of the engine's `variables.add` call: mismatched
argument lengths or an invalid type character raise `CplexError`.  This
models the cplex API's documented validation, invoked by the source
outside its try/except block. -/
def varsAddExn (c u l : List ℚ) (types : Option (List Char))
    (names : List String) : Option Exn :=
  if c.length = names.length ∧ u.length = names.length ∧ l.length = names.length ∧
      (∀ ts ∈ types.toList, ts.length = names.length) then
    if ∀ ts ∈ types.toList, ∀ ch ∈ ts, ch ∈ cplexTypeChars then none
    else some (.cplexError "invalid variable type")
  else some (.cplexError "inconsistent arguments")

/-- Argument validation of the engine's `linear_constraints.add` call:
the right-hand-side vector, the joined senses string and the constraint
list must have equal lengths, and each sparse pair's index and value
lists must have equal lengths; otherwise `CplexError`.  This models the
cplex API's documented validation, invoked by the source outside its
try/except block. -/
def linConsExn (linExpr : List (List Nat × List ℚ)) (senses : List Char)
    (rhs : List ℚ) : Option Exn :=
  if rhs.length = linExpr.length ∧ senses.length = linExpr.length ∧
      ∀ p ∈ linExpr, p.1.length = p.2.length then none
  else some (.cplexError "inconsistent arguments")

/-- The dense-to-sparse translation of the source:
`A = [[[i for i in range(noCol)], A[j]] for j in range(noRow)]`. -/
def denseToSparse (A : List (List ℚ)) (noCol : Nat) : List (List Nat × List ℚ) :=
  A.map (fun row => (List.range noCol, row))

/-- The senses argument of the source: the singleton list `["L" * noRow]`. -/
def sensesArg (noRow : Nat) : List (List Char) := [List.replicate noRow 'L']

/-- The cplex API joins a list of sense strings into one string. -/
def joinSenses (ss : List (List Char)) : List Char := ss.flatten

/-- The generated column names of the source: `["x"+str(i) for i in range(noCol)]`. -/
def colnamesOf (noCol : Nat) : List String :=
  (List.range noCol).map (fun i => "x" ++ toString i)

/-- The model `lprog` builds (for a nonempty matrix): maximize sense,
generated names, `obj=c, ub=u, lb=l`, no type tags, translated
constraints with senses `"L" * noRow` and `rhs=b`. -/
def lprogModel (A : List (List ℚ)) (b c u l : List ℚ) : Model :=
  { maximize := true
    colnames := colnamesOf (A.headD []).length
    obj := c
    ub := u
    lb := l
    types := none
    linExpr := denseToSparse A (A.headD []).length
    senses := joinSenses (sensesArg A.length)
    rhs := b }

/-- The model `mip` builds: as `lprogModel` plus `types=varType`. -/
def mipModel (A : List (List ℚ)) (b c u l : List ℚ) (varType : List Char) : Model :=
  { lprogModel A b c u l with types := some varType }

/-- The four stream-suppression calls performed when `quietOpt` is set. -/
def suppressEvents : List Event :=
  [.suppressLog, .suppressError, .suppressWarning, .suppressResults]

/-- The try block of both façades: call `solve()` (whose exception, if
any, the engine oracle determines), on normal return optionally write
the model file and print the save message, then read values and
objective — a missing solution raises `CplexError`, and
`except CplexError` prints the message and returns `([], -1)` while any
other exception propagates. -/
def tryBlock (E : Engine) (m : Model) (fname saveMsg : String)
    (saveOpt : Bool) : RunOut :=
  match E.solveExn m with
  | some (.cplexError s) =>
      ⟨.ok ([], -1), [.solveCall m, .printed s]⟩
  | some e => ⟨.raise e, [.solveCall m]⟩
  | none =>
      let wtr : List Event :=
        if saveOpt then [.fileWrite fname, .printed saveMsg] else []
      match E.solution m with
      | some (xs, obj) => ⟨.ok (xs, obj), [.solveCall m] ++ wtr⟩
      | none =>
          ⟨.ok ([], -1),
            [.solveCall m] ++ wtr ++
              [.printed "CPLEX Error  1217: No solution exists."]⟩

/-- The tail shared by both façades: suppress the four diagnostic
streams when `quietOpt` is set, then run the try/except block. -/
def dispatch (E : Engine) (m : Model) (fname saveMsg : String)
    (saveOpt quietOpt : Bool) : RunOut :=
  let core := tryBlock E m fname saveMsg saveOpt
  ⟨core.result, (if quietOpt then suppressEvents else []) ++ core.trace⟩

/-- The `lprog` façade of LP/LP_final.ipynb.  `len(A[0])` raises
`IndexError` on an empty matrix; `variables.add` and
`linear_constraints.add` validate outside the try block, so their
exceptions propagate; then the shared dispatch runs. -/
def lprog (E : Engine) (A : List (List ℚ)) (b c u l : List ℚ)
    (saveOpt quietOpt : Bool) : RunOut :=
  match A with
  | [] => ⟨.raise .indexError, []⟩
  | r0 :: _ =>
    match varsAddExn c u l none (colnamesOf r0.length) with
    | some e => ⟨.raise e, []⟩
    | none =>
      let m := lprogModel A b c u l
      match linConsExn m.linExpr m.senses b with
      | some e => ⟨.raise e, []⟩
      | none => dispatch E m "lprog.lp" "LP saved as lprog.lp" saveOpt quietOpt

/-- The `mip` façade of MIP/MIP_final.ipynb: as `lprog` but passing
`types=varType` to `variables.add` and writing "mip.lp". -/
def mip (E : Engine) (A : List (List ℚ)) (b c u l : List ℚ)
    (varType : List Char) (saveOpt quietOpt : Bool) : RunOut :=
  match A with
  | [] => ⟨.raise .indexError, []⟩
  | r0 :: _ =>
    match varsAddExn c u l (some varType) (colnamesOf r0.length) with
    | some e => ⟨.raise e, []⟩
    | none =>
      let m := mipModel A b c u l varType
      match linConsExn m.linExpr m.senses b with
      | some e => ⟨.raise e, []⟩
      | none => dispatch E m "mip.lp" "LP saved as mip.lp" saveOpt quietOpt

/-- Well-shaped input: every row as long as the first, the right-hand
side as long as the row count, and each vector as long as the column
count. -/
def Shaped (A : List (List ℚ)) (b c u l : List ℚ) : Prop :=
  (∀ row ∈ A, row.length = (A.headD []).length) ∧
  b.length = A.length ∧
  c.length = (A.headD []).length ∧
  u.length = (A.headD []).length ∧
  l.length = (A.headD []).length

instance (A : List (List ℚ)) (b c u l : List ℚ) : Decidable (Shaped A b c u l) := by
  unfold Shaped; infer_instance

/-- Well-formed type tags for the engine: one tag per column, every tag
among the characters the engine accepts. -/
def TagsOk (varType : List Char) (noCol : Nat) : Prop :=
  varType.length = noCol ∧ ∀ ch ∈ varType, ch ∈ cplexTypeChars

instance (varType : List Char) (noCol : Nat) : Decidable (TagsOk varType noCol) := by
  unfold TagsOk; infer_instance

/-- A deterministic stand-in engine used for concrete runs: `solve()`
never raises and no solution is available. -/
def trivEngine : Engine where
  solveExn := fun _ => none
  solution := fun _ => none

/-- The generated name list has one name per column. -/
theorem length_colnamesOf (n : Nat) : (colnamesOf n).length = n := by
  simp [colnamesOf]

/-- The translated constraint list has one entry per matrix row. -/
theorem length_denseToSparse (A : List (List ℚ)) (noCol : Nat) :
    (denseToSparse A noCol).length = A.length := by
  simp [denseToSparse]

/-- The senses the source passes join to `'L'` repeated once per row. -/
theorem senses_lprogModel (A : List (List ℚ)) (b c u l : List ℚ) :
    (lprogModel A b c u l).senses = List.replicate A.length 'L' := by
  simp [lprogModel, joinSenses, sensesArg]

theorem varsAddExn_eq_none (c u l : List ℚ) (types : Option (List Char))
    (names : List String)
    (h1 : c.length = names.length) (h2 : u.length = names.length)
    (h3 : l.length = names.length)
    (h4 : ∀ ts ∈ types.toList, ts.length = names.length)
    (h5 : ∀ ts ∈ types.toList, ∀ ch ∈ ts, ch ∈ cplexTypeChars) :
    varsAddExn c u l types names = none := by
  unfold varsAddExn
  rw [if_pos ⟨h1, h2, h3, h4⟩, if_pos h5]

theorem linConsExn_eq_none (linExpr : List (List Nat × List ℚ)) (senses : List Char)
    (rhs : List ℚ) (h1 : rhs.length = linExpr.length)
    (h2 : senses.length = linExpr.length)
    (h3 : ∀ p ∈ linExpr, p.1.length = p.2.length) :
    linConsExn linExpr senses rhs = none := by
  unfold linConsExn
  rw [if_pos ⟨h1, h2, h3⟩]

/-- Both engine validation calls either pass or raise a `CplexError`. -/
theorem varsAddExn_cases (c u l : List ℚ) (types : Option (List Char))
    (names : List String) :
    varsAddExn c u l types names = none ∨
      ∃ s, varsAddExn c u l types names = some (.cplexError s) := by
  unfold varsAddExn
  split
  · split
    · exact Or.inl rfl
    · exact Or.inr ⟨_, rfl⟩
  · exact Or.inr ⟨_, rfl⟩

theorem linConsExn_cases (linExpr : List (List Nat × List ℚ)) (senses : List Char)
    (rhs : List ℚ) :
    linConsExn linExpr senses rhs = none ∨
      ∃ s, linConsExn linExpr senses rhs = some (.cplexError s) := by
  unfold linConsExn
  split
  · exact Or.inl rfl
  · exact Or.inr ⟨_, rfl⟩

/-- If both validation calls pass, the LP input was well shaped. -/
theorem shaped_of_checks (A : List (List ℚ)) (b c u l : List ℚ)
    (r0 : List ℚ) (rest : List (List ℚ)) (hA : A = r0 :: rest)
    (hv : varsAddExn c u l none (colnamesOf r0.length) = none)
    (hl : linConsExn (lprogModel A b c u l).linExpr (lprogModel A b c u l).senses b = none) :
    Shaped A b c u l := by
  subst hA
  unfold varsAddExn at hv
  split at hv
  case isTrue hcond =>
    unfold linConsExn at hl
    split at hl
    case isTrue hcond' =>
      obtain ⟨h1, h2, h3, -⟩ := hcond
      obtain ⟨hb, -, hrow⟩ := hcond'
      refine ⟨?_, ?_, ?_, ?_, ?_⟩
      · intro row hrowmem
        have := hrow (List.range r0.length, row) ?_
        · simpa using this.symm
        · simp only [lprogModel, denseToSparse]
          exact List.mem_map.mpr ⟨row, hrowmem, rfl⟩
      · simpa [lprogModel, denseToSparse] using hb
      · simpa [length_colnamesOf] using h1
      · simpa [length_colnamesOf] using h2
      · simpa [length_colnamesOf] using h3
    case isFalse => exact absurd hl (by simp)
  case isFalse => exact absurd hv (by simp)

/-- If both of `mip`'s validation calls pass, the input was well shaped
and the type tags were acceptable to the engine. -/
theorem shaped_tags_of_checks (A : List (List ℚ)) (b c u l : List ℚ) (vt : List Char)
    (r0 : List ℚ) (rest : List (List ℚ)) (hA : A = r0 :: rest)
    (hv : varsAddExn c u l (some vt) (colnamesOf r0.length) = none)
    (hl : linConsExn (mipModel A b c u l vt).linExpr (mipModel A b c u l vt).senses b = none) :
    Shaped A b c u l ∧ TagsOk vt r0.length := by
  subst hA
  unfold varsAddExn at hv
  split at hv
  case isTrue hcond =>
    split at hv
    case isTrue htype =>
      unfold linConsExn at hl
      split at hl
      case isTrue hcond' =>
        obtain ⟨h1, h2, h3, h4⟩ := hcond
        obtain ⟨hb, -, hrow⟩ := hcond'
        have hvtlen : vt.length = r0.length := by
          simpa [length_colnamesOf] using h4 vt (by simp)
        refine ⟨⟨?_, ?_, ?_, ?_, ?_⟩, hvtlen, ?_⟩
        · intro row hrowmem
          have := hrow (List.range r0.length, row) ?_
          · simpa using this.symm
          · simp only [mipModel, lprogModel, denseToSparse]
            exact List.mem_map.mpr ⟨row, hrowmem, rfl⟩
        · simpa [mipModel, lprogModel, denseToSparse] using hb
        · simpa [length_colnamesOf] using h1
        · simpa [length_colnamesOf] using h2
        · simpa [length_colnamesOf] using h3
        · intro ch hch
          exact htype vt (by simp) ch hch
      case isFalse => exact absurd hl (by simp)
    case isFalse => exact absurd hv (by simp)
  case isFalse => exact absurd hv (by simp)

/-- Defining equation: an empty matrix raises `IndexError` immediately. -/
theorem lprog_nil (E : Engine) (b c u l : List ℚ) (s q : Bool) :
    lprog E [] b c u l s q = ⟨.raise .indexError, []⟩ := rfl

theorem mip_nil (E : Engine) (b c u l : List ℚ) (vt : List Char) (s q : Bool) :
    mip E [] b c u l vt s q = ⟨.raise .indexError, []⟩ := rfl

/-- Defining equation: a `variables.add` exception propagates with an
empty trace. -/
theorem lprog_raise_vars (E : Engine) (r0 : List ℚ) (rest : List (List ℚ))
    (b c u l : List ℚ) (s q : Bool) (e : Exn)
    (hv : varsAddExn c u l none (colnamesOf r0.length) = some e) :
    lprog E (r0 :: rest) b c u l s q = ⟨.raise e, []⟩ := by
  simp only [lprog, hv]

theorem mip_raise_vars (E : Engine) (r0 : List ℚ) (rest : List (List ℚ))
    (b c u l : List ℚ) (vt : List Char) (s q : Bool) (e : Exn)
    (hv : varsAddExn c u l (some vt) (colnamesOf r0.length) = some e) :
    mip E (r0 :: rest) b c u l vt s q = ⟨.raise e, []⟩ := by
  simp only [mip, hv]

/-- Defining equation: a `linear_constraints.add` exception propagates
with an empty trace. -/
theorem lprog_raise_lincons (E : Engine) (r0 : List ℚ) (rest : List (List ℚ))
    (b c u l : List ℚ) (s q : Bool) (e : Exn)
    (hv : varsAddExn c u l none (colnamesOf r0.length) = none)
    (hl : linConsExn (lprogModel (r0 :: rest) b c u l).linExpr
        (lprogModel (r0 :: rest) b c u l).senses b = some e) :
    lprog E (r0 :: rest) b c u l s q = ⟨.raise e, []⟩ := by
  simp only [lprog, hv]
  simp only [hl]

theorem mip_raise_lincons (E : Engine) (r0 : List ℚ) (rest : List (List ℚ))
    (b c u l : List ℚ) (vt : List Char) (s q : Bool) (e : Exn)
    (hv : varsAddExn c u l (some vt) (colnamesOf r0.length) = none)
    (hl : linConsExn (mipModel (r0 :: rest) b c u l vt).linExpr
        (mipModel (r0 :: rest) b c u l vt).senses b = some e) :
    mip E (r0 :: rest) b c u l vt s q = ⟨.raise e, []⟩ := by
  simp only [mip, hv]
  simp only [hl]

/-- Defining equation: when both validation calls pass, `lprog` runs the
shared dispatch tail on the model it built. -/
theorem lprog_dispatch (E : Engine) (r0 : List ℚ) (rest : List (List ℚ))
    (b c u l : List ℚ) (s q : Bool)
    (hv : varsAddExn c u l none (colnamesOf r0.length) = none)
    (hl : linConsExn (lprogModel (r0 :: rest) b c u l).linExpr
        (lprogModel (r0 :: rest) b c u l).senses b = none) :
    lprog E (r0 :: rest) b c u l s q
      = dispatch E (lprogModel (r0 :: rest) b c u l) "lprog.lp" "LP saved as lprog.lp" s q := by
  simp only [lprog, hv, hl]

theorem mip_dispatch (E : Engine) (r0 : List ℚ) (rest : List (List ℚ))
    (b c u l : List ℚ) (vt : List Char) (s q : Bool)
    (hv : varsAddExn c u l (some vt) (colnamesOf r0.length) = none)
    (hl : linConsExn (mipModel (r0 :: rest) b c u l vt).linExpr
        (mipModel (r0 :: rest) b c u l vt).senses b = none) :
    mip E (r0 :: rest) b c u l vt s q
      = dispatch E (mipModel (r0 :: rest) b c u l vt) "mip.lp" "LP saved as mip.lp" s q := by
  simp only [mip, hv, hl]

/-- A well-shaped LP input passes both validation calls. -/
theorem checks_of_shaped (A : List (List ℚ)) (b c u l : List ℚ)
    (r0 : List ℚ) (rest : List (List ℚ)) (hA : A = r0 :: rest)
    (hsh : Shaped A b c u l) :
    varsAddExn c u l none (colnamesOf r0.length) = none ∧
    linConsExn (lprogModel A b c u l).linExpr (lprogModel A b c u l).senses b = none := by
  subst hA
  obtain ⟨hrow, hb, hc, hu, hl⟩ := hsh
  constructor
  · exact varsAddExn_eq_none _ _ _ _ _ (by simpa [length_colnamesOf] using hc)
      (by simpa [length_colnamesOf] using hu)
      (by simpa [length_colnamesOf] using hl) (by simp) (by simp)
  · refine linConsExn_eq_none _ _ _ ?_ ?_ ?_
    · simpa [lprogModel, denseToSparse] using hb
    · simp [lprogModel, joinSenses, sensesArg, denseToSparse]
    · intro p hp
      simp only [lprogModel, denseToSparse, List.mem_map] at hp
      obtain ⟨row, hrowmem, rfl⟩ := hp
      simpa using (hrow row hrowmem).symm

/-- A well-shaped mip input with acceptable tags passes both validation
calls. -/
theorem checks_of_shaped_tags (A : List (List ℚ)) (b c u l : List ℚ) (vt : List Char)
    (r0 : List ℚ) (rest : List (List ℚ)) (hA : A = r0 :: rest)
    (hsh : Shaped A b c u l) (htg : TagsOk vt r0.length) :
    varsAddExn c u l (some vt) (colnamesOf r0.length) = none ∧
    linConsExn (mipModel A b c u l vt).linExpr (mipModel A b c u l vt).senses b = none := by
  subst hA
  obtain ⟨hrow, hb, hc, hu, hl⟩ := hsh
  constructor
  · refine varsAddExn_eq_none _ _ _ _ _ (by simpa [length_colnamesOf] using hc)
      (by simpa [length_colnamesOf] using hu)
      (by simpa [length_colnamesOf] using hl) ?_ ?_
    · intro ts hts
      simp only [Option.toList_some, List.mem_singleton] at hts
      subst hts
      simpa [length_colnamesOf] using htg.1
    · intro ts hts
      simp only [Option.toList_some, List.mem_singleton] at hts
      subst hts
      exact htg.2
  · refine linConsExn_eq_none _ _ _ ?_ ?_ ?_
    · simpa [mipModel, lprogModel, denseToSparse] using hb
    · simp [mipModel, lprogModel, joinSenses, sensesArg, denseToSparse]
    · intro p hp
      simp only [mipModel, lprogModel, denseToSparse, List.mem_map] at hp
      obtain ⟨row, hrowmem, rfl⟩ := hp
      simpa using (hrow row hrowmem).symm

/-- The quiet flag changes neither the returned result nor the
non-diagnostic events of the dispatch tail. -/
theorem dispatch_result_eq (E : Engine) (m : Model) (f sm : String) (s q q' : Bool) :
    (dispatch E m f sm s q).result = (dispatch E m f sm s q').result := rfl

theorem dispatch_trace_filter (E : Engine) (m : Model) (f sm : String) (s q q' : Bool) :
    (dispatch E m f sm s q).trace.filter (fun e => !e.isDiagnostic)
      = (dispatch E m f sm s q').trace.filter (fun e => !e.isDiagnostic) := by
  unfold dispatch
  simp only [List.filter_append]
  cases q <;> cases q' <;> simp [suppressEvents, Event.isDiagnostic]

/-- When the solve call returns without throwing and the persist flag is
set, the dispatch tail writes the model file. -/
theorem dispatch_write (E : Engine) (m : Model) (f sm : String) (q : Bool)
    (h : E.solveExn m = none) :
    Event.fileWrite f ∈ (dispatch E m f sm true q).trace := by
  unfold dispatch tryBlock
  rw [h]
  rcases E.solution m with _ | ⟨xs, obj⟩ <;> simp

/-- When the persist flag is unset, the dispatch tail writes no file. -/
theorem dispatch_no_write (E : Engine) (m : Model) (f sm : String) (q : Bool) (g : String) :
    Event.fileWrite g ∉ (dispatch E m f sm false q).trace := by
  unfold dispatch tryBlock
  rcases hE : E.solveExn m with _ | e
  · rcases E.solution m with _ | ⟨xs, obj⟩ <;> cases q <;> simp [suppressEvents]
  · cases e <;> cases q <;> simp [suppressEvents]

/-- Reading the solution of an unsolved model raises `CplexError`, which
the except clause converts to the `([], -1)` sentinel. -/
theorem dispatch_sentinel_nosol (E : Engine) (m : Model) (f sm : String) (s q : Bool)
    (h1 : E.solveExn m = none) (h2 : E.solution m = none) :
    (dispatch E m f sm s q).result = .ok ([], -1) := by
  unfold dispatch tryBlock
  rw [h1, h2]

/-- A `CplexError` thrown by the solve call is converted to the
`([], -1)` sentinel. -/
theorem dispatch_sentinel_cplex (E : Engine) (m : Model) (f sm : String) (s q : Bool)
    (msg : String) (h : E.solveExn m = some (.cplexError msg)) :
    (dispatch E m f sm s q).result = .ok ([], -1) := by
  unfold dispatch tryBlock
  rw [h]

/-- Any exception from the solve call: `CplexError` becomes the
sentinel, everything else propagates. -/
theorem dispatch_solve_raises (E : Engine) (m : Model) (f sm : String) (s q : Bool)
    (e : Exn) (h : E.solveExn m = some e) :
    (dispatch E m f sm s q).result
      = (if e.isCplexError then .ok ([], -1) else .raise e) := by
  unfold dispatch tryBlock
  rw [h]
  cases e <;> simp [Exn.isCplexError]

/-- A successful solve with an available solution is returned verbatim. -/
theorem dispatch_ok (E : Engine) (m : Model) (f sm : String) (s q : Bool)
    (xs : List ℚ) (obj : ℚ) (h1 : E.solveExn m = none)
    (h2 : E.solution m = some (xs, obj)) :
    (dispatch E m f sm s q).result = .ok (xs, obj) := by
  unfold dispatch tryBlock
  rw [h1, h2]

/-- The only solve call in a dispatch trace carries the model the façade
built. -/
theorem dispatch_solveCall_mem (E : Engine) (m : Model) (f sm : String) (s q : Bool)
    (m' : Model) (h : Event.solveCall m' ∈ (dispatch E m f sm s q).trace) :
    m' = m := by
  unfold dispatch tryBlock at h
  rcases hE : E.solveExn m with _ | e <;> rw [hE] at h
  · rcases hs : E.solution m with _ | ⟨xs, obj⟩ <;> rw [hs] at h <;>
      cases q <;> cases s <;> simp [suppressEvents] at h <;> exact h
  · cases e <;> cases q <;> simp [suppressEvents] at h <;> exact h

/-- A mis-shaped LP input makes `lprog` propagate the engine's
validation `CplexError` with an empty trace. -/
theorem lprog_not_shaped (E : Engine) (A : List (List ℚ)) (b c u l : List ℚ)
    (s q : Bool) (r0 : List ℚ) (rest : List (List ℚ)) (hA : A = r0 :: rest)
    (h : ¬ Shaped A b c u l) :
    ∃ msg, lprog E A b c u l s q = ⟨.raise (.cplexError msg), []⟩ := by
  subst hA
  rcases varsAddExn_cases c u l none (colnamesOf r0.length) with hv | ⟨msg, hv⟩
  · rcases linConsExn_cases (lprogModel (r0 :: rest) b c u l).linExpr
        (lprogModel (r0 :: rest) b c u l).senses b with hl | ⟨msg, hl⟩
    · exact absurd (shaped_of_checks _ b c u l r0 rest rfl hv hl) h
    · exact ⟨msg, lprog_raise_lincons E r0 rest b c u l s q _ hv hl⟩
  · exact ⟨msg, lprog_raise_vars E r0 rest b c u l s q _ hv⟩

/-- A mis-shaped or mis-tagged input makes `mip` propagate the engine's
validation `CplexError` with an empty trace. -/
theorem mip_not_ok (E : Engine) (A : List (List ℚ)) (b c u l : List ℚ) (vt : List Char)
    (s q : Bool) (r0 : List ℚ) (rest : List (List ℚ)) (hA : A = r0 :: rest)
    (h : ¬ (Shaped A b c u l ∧ TagsOk vt r0.length)) :
    ∃ msg, mip E A b c u l vt s q = ⟨.raise (.cplexError msg), []⟩ := by
  subst hA
  rcases varsAddExn_cases c u l (some vt) (colnamesOf r0.length) with hv | ⟨msg, hv⟩
  · rcases linConsExn_cases (mipModel (r0 :: rest) b c u l vt).linExpr
        (mipModel (r0 :: rest) b c u l vt).senses b with hl | ⟨msg, hl⟩
    · exact absurd (shaped_tags_of_checks _ b c u l vt r0 rest rfl hv hl) h
    · exact ⟨msg, mip_raise_lincons E r0 rest b c u l vt s q _ hv hl⟩
  · exact ⟨msg, mip_raise_vars E r0 rest b c u l vt s q _ hv⟩

/-- Objective value of an assignment: `sum(c[i] * values[i])`. -/
def dot (c xs : List ℚ) : ℚ := ((c.zip xs).map (fun p => p.1 * p.2)).sum

/-- Value of one sparse constraint row at an assignment. -/
def sparseDot (p : List Nat × List ℚ) (xs : List ℚ) : ℚ :=
  ((p.1.zip p.2).map (fun iv => iv.2 * xs.getD iv.1 0)).sum

/-- An assignment satisfying a model's bounds and constraints. -/
def FeasPoint (m : Model) (xs : List ℚ) : Prop :=
  xs.length = m.obj.length ∧
  (∀ i < xs.length, m.lb.getD i 0 ≤ xs.getD i 0 ∧ xs.getD i 0 ≤ m.ub.getD i 0) ∧
  (∀ j < m.linExpr.length, sparseDot (m.linExpr.getD j ([], [])) xs ≤ m.rhs.getD j 0)

instance (m : Model) (xs : List ℚ) : Decidable (FeasPoint m xs) := by
  unfold FeasPoint; infer_instance

/-- A model with at least one feasible assignment. -/
def Feasible (m : Model) : Prop := ∃ xs, FeasPoint m xs

/-- A model whose objective is bounded above on its feasible set. -/
def BoundedAboveObj (m : Model) : Prop :=
  ∃ B, ∀ xs, FeasPoint m xs → dot m.obj xs ≤ B

/-- Modelled from the spec: the external solving engine is not part of
this repository; per §1/§4.4 it is a black box that, on a feasible
bounded maximize model, solves without error and reports one value per
variable together with the objective value `sum(c[i] * values[i])`. -/
def Engine.ConformsAt (E : Engine) (m : Model) : Prop :=
  Feasible m → BoundedAboveObj m →
    E.solveExn m = none ∧
    ∃ xs obj, E.solution m = some (xs, obj) ∧
      xs.length = m.obj.length ∧ obj = dot m.obj xs

/-- Modelled from the spec: per §4.3/§7 an infeasible model makes the
engine signal failure by raising `CplexError` — observed in the source
notebooks as "CPLEX Error 1217: No solution exists." raised when the
solution is read, and it may equally come from the solve call itself. -/
def Engine.InfeasSignal (E : Engine) (m : Model) : Prop :=
  (E.solveExn m = none ∧ E.solution m = none) ∨
    ∃ msg, E.solveExn m = some (.cplexError msg)

/-- Zipping the column indices with a full-length row pairs each index
with the row entry at that index. -/
theorem zip_range_eq (row : List ℚ) (C : Nat) (h : row.length = C) :
    (List.range C).zip row
      = (List.range C).map (fun i => (i, row.getD i 0)) := by
  apply List.ext_getElem
  · simp [h]
  · intro i h1 h2
    have hi : i < C := by simpa using h2
    have hirow : i < row.length := by omega
    rw [List.getElem_zip, List.getElem_map, List.getElem_range,
      List.getD_eq_getElem?_getD, List.getElem?_eq_getElem hirow, Option.getD_some]

/-- Quiet-flag irrelevance for `lprog`, by cases over the three phases. -/
theorem lprog_quiet (E : Engine) (A : List (List ℚ)) (b c u l : List ℚ) (s : Bool) :
    (lprog E A b c u l s true).result = (lprog E A b c u l s false).result ∧
    (lprog E A b c u l s true).trace.filter (fun e => !e.isDiagnostic)
      = (lprog E A b c u l s false).trace.filter (fun e => !e.isDiagnostic) := by
  rcases A with _ | ⟨r0, rest⟩
  · exact ⟨rfl, rfl⟩
  · rcases hv : varsAddExn c u l none (colnamesOf r0.length) with _ | e
    · rcases hl : linConsExn (lprogModel (r0 :: rest) b c u l).linExpr
          (lprogModel (r0 :: rest) b c u l).senses b with _ | e
      · rw [lprog_dispatch E r0 rest b c u l s true hv hl,
          lprog_dispatch E r0 rest b c u l s false hv hl]
        exact ⟨rfl, dispatch_trace_filter E _ _ _ s true false⟩
      · rw [lprog_raise_lincons E r0 rest b c u l s true e hv hl,
          lprog_raise_lincons E r0 rest b c u l s false e hv hl]
        exact ⟨rfl, rfl⟩
    · rw [lprog_raise_vars E r0 rest b c u l s true e hv,
        lprog_raise_vars E r0 rest b c u l s false e hv]
      exact ⟨rfl, rfl⟩

/-- Quiet-flag irrelevance for `mip`, by cases over the three phases. -/
theorem mip_quiet (E : Engine) (A : List (List ℚ)) (b c u l : List ℚ)
    (vt : List Char) (s : Bool) :
    (mip E A b c u l vt s true).result = (mip E A b c u l vt s false).result ∧
    (mip E A b c u l vt s true).trace.filter (fun e => !e.isDiagnostic)
      = (mip E A b c u l vt s false).trace.filter (fun e => !e.isDiagnostic) := by
  rcases A with _ | ⟨r0, rest⟩
  · exact ⟨rfl, rfl⟩
  · rcases hv : varsAddExn c u l (some vt) (colnamesOf r0.length) with _ | e
    · rcases hl : linConsExn (mipModel (r0 :: rest) b c u l vt).linExpr
          (mipModel (r0 :: rest) b c u l vt).senses b with _ | e
      · rw [mip_dispatch E r0 rest b c u l vt s true hv hl,
          mip_dispatch E r0 rest b c u l vt s false hv hl]
        exact ⟨rfl, dispatch_trace_filter E _ _ _ s true false⟩
      · rw [mip_raise_lincons E r0 rest b c u l vt s true e hv hl,
          mip_raise_lincons E r0 rest b c u l vt s false e hv hl]
        exact ⟨rfl, rfl⟩
    · rw [mip_raise_vars E r0 rest b c u l vt s true e hv,
        mip_raise_vars E r0 rest b c u l vt s false e hv]
      exact ⟨rfl, rfl⟩

/-- Claim C1 (amended): for every nonempty input with mismatched
dimensions, both façades raise an uncaught `CplexError` from the
engine's model-building argument validation — not the spec's
`ShapeError`, which the code does not define — and this happens before
the solve call: no engine solve call occurs and no model file is
written. -/
theorem claim1_mismatch_uncaught_cplex (E : Engine) (A : List (List ℚ))
    (b c u l : List ℚ) (vt : List Char) (s q : Bool)
    (r0 : List ℚ) (rest : List (List ℚ)) (hA : A = r0 :: rest)
    (hmis : ¬ Shaped A b c u l) :
    (∃ msg, (lprog E A b c u l s q).result = .raise (.cplexError msg)) ∧
    (∀ m', Event.solveCall m' ∉ (lprog E A b c u l s q).trace) ∧
    (∀ f, Event.fileWrite f ∉ (lprog E A b c u l s q).trace) ∧
    (∃ msg, (mip E A b c u l vt s q).result = .raise (.cplexError msg)) ∧
    (∀ m', Event.solveCall m' ∉ (mip E A b c u l vt s q).trace) ∧
    (∀ f, Event.fileWrite f ∉ (mip E A b c u l vt s q).trace) := by
  obtain ⟨msg1, h1⟩ := lprog_not_shaped E A b c u l s q r0 rest hA hmis
  obtain ⟨msg2, h2⟩ := mip_not_ok E A b c u l vt s q r0 rest hA (fun h => hmis h.1)
  exact ⟨⟨msg1, by rw [h1]⟩, fun m' => by simp [h1], fun f => by simp [h1],
    ⟨msg2, by rw [h2]⟩, fun m' => by simp [h2], fun f => by simp [h2]⟩

/-- Claim C1 witness: a concrete ragged matrix discharging the amended
theorem's hypotheses. -/
theorem claim1_witness :
    ¬ Shaped [[1, 2], [3]] [1, 1] [1, 1] [1, 1] [0, 0] ∧
    ((∃ msg, (lprog trivEngine [[1, 2], [3]] [1, 1] [1, 1] [1, 1] [0, 0] true true).result
        = .raise (.cplexError msg)) ∧
      (∀ m', Event.solveCall m'
          ∉ (lprog trivEngine [[1, 2], [3]] [1, 1] [1, 1] [1, 1] [0, 0] true true).trace) ∧
      (∀ f, Event.fileWrite f
          ∉ (lprog trivEngine [[1, 2], [3]] [1, 1] [1, 1] [1, 1] [0, 0] true true).trace) ∧
      (∃ msg, (mip trivEngine [[1, 2], [3]] [1, 1] [1, 1] [1, 1] [0, 0] ['C', 'C'] true true).result
        = .raise (.cplexError msg)) ∧
      (∀ m', Event.solveCall m'
          ∉ (mip trivEngine [[1, 2], [3]] [1, 1] [1, 1] [1, 1] [0, 0] ['C', 'C'] true true).trace) ∧
      (∀ f, Event.fileWrite f
          ∉ (mip trivEngine [[1, 2], [3]] [1, 1] [1, 1] [1, 1] [0, 0] ['C', 'C'] true true).trace)) :=
  ⟨by decide,
    claim1_mismatch_uncaught_cplex trivEngine [[1, 2], [3]] [1, 1] [1, 1] [1, 1] [0, 0]
      ['C', 'C'] true true [1, 2] [[3]] rfl (by decide)⟩

/-- Claim C1 counterexample: at the ragged matrix `[[1,2],[3]]` neither
façade fails with the spec's `ShapeError`; the code raises the engine's
`CplexError` instead. -/
theorem claim1_counterexample :
    (lprog trivEngine [[1, 2], [3]] [1, 1] [1, 1] [1, 1] [0, 0] false false).result
        = .raise (.cplexError "inconsistent arguments") ∧
    (lprog trivEngine [[1, 2], [3]] [1, 1] [1, 1] [1, 1] [0, 0] false false).result
        ≠ .raise .shapeError ∧
    (mip trivEngine [[1, 2], [3]] [1, 1] [1, 1] [1, 1] [0, 0] ['C', 'C'] false false).result
        = .raise (.cplexError "inconsistent arguments") ∧
    (mip trivEngine [[1, 2], [3]] [1, 1] [1, 1] [1, 1] [0, 0] ['C', 'C'] false false).result
        ≠ .raise .shapeError := by decide

/-- Claim C4 (amended): a type-tag sequence whose length differs from
the variable count, or containing a character outside the engine's
accepted set, makes `mip` raise an uncaught `CplexError` from the
engine's `variables.add` during model building — not the spec's
`TypeTagError`, which the code does not define — before any solve call
and before any file write. -/
theorem claim4_badtags_uncaught_cplex (E : Engine) (A : List (List ℚ))
    (b c u l : List ℚ) (vt : List Char) (s q : Bool)
    (r0 : List ℚ) (rest : List (List ℚ)) (hA : A = r0 :: rest)
    (hbad : ¬ TagsOk vt r0.length) :
    (∃ msg, (mip E A b c u l vt s q).result = .raise (.cplexError msg)) ∧
    (∀ m', Event.solveCall m' ∉ (mip E A b c u l vt s q).trace) ∧
    (∀ f, Event.fileWrite f ∉ (mip E A b c u l vt s q).trace) := by
  obtain ⟨msg, h⟩ := mip_not_ok E A b c u l vt s q r0 rest hA (fun h => hbad h.2)
  exact ⟨⟨msg, by rw [h]⟩, fun m' => by simp [h], fun f => by simp [h]⟩

/-- Claim C4 witness: one tag for a two-column matrix discharges the
amended theorem's hypotheses. -/
theorem claim4_witness :
    ¬ TagsOk ['C'] [(1 : ℚ), 1].length ∧
    ((∃ msg, (mip trivEngine [[1, 1]] [1] [1, 1] [1, 1] [0, 0] ['C'] true true).result
        = .raise (.cplexError msg)) ∧
      (∀ m', Event.solveCall m'
          ∉ (mip trivEngine [[1, 1]] [1] [1, 1] [1, 1] [0, 0] ['C'] true true).trace) ∧
      (∀ f, Event.fileWrite f
          ∉ (mip trivEngine [[1, 1]] [1] [1, 1] [1, 1] [0, 0] ['C'] true true).trace)) :=
  ⟨by decide,
    claim4_badtags_uncaught_cplex trivEngine [[1, 1]] [1] [1, 1] [1, 1] [0, 0] ['C']
      true true [1, 1] [] rfl (by decide)⟩

/-- Claim C4 counterexample: a wrong-length tag sequence raises the
engine's `CplexError`, not `TypeTagError`; and the tag `'S'`, outside
the spec's set but accepted by the engine, aborts nothing at all. -/
theorem claim4_counterexample :
    (mip trivEngine [[1, 1]] [1] [1, 1] [1, 1] [0, 0] ['C'] false false).result
        ≠ .raise .typeTagError ∧
    (mip trivEngine [[1, 1]] [1] [1, 1] [1, 1] [0, 0] ['C'] false false).result
        = .raise (.cplexError "inconsistent arguments") ∧
    (mip trivEngine [[1, 1]] [1] [1, 1] [1, 1] [0, 0] ['C', 'S'] false false).result
        = .ok ([], -1) := by decide

/-- Claim C10: on an empty coefficient matrix both façades raise an
uncaught `IndexError` from `len(A[0])`, before any other effect. -/
theorem claim10_empty_matrix_index_error (E : Engine) (b c u l : List ℚ)
    (vt : List Char) (s q : Bool) :
    lprog E [] b c u l s q = ⟨.raise .indexError, []⟩ ∧
    mip E [] b c u l vt s q = ⟨.raise .indexError, []⟩ := ⟨rfl, rfl⟩

/-- Claim C7: the quiet flag changes neither façade's returned result
nor any non-diagnostic event (solve call, file write); it only removes
diagnostic events. -/
theorem claim7_quiet_flag_no_effect (E : Engine) (A : List (List ℚ))
    (b c u l : List ℚ) (vt : List Char) (s : Bool) :
    (lprog E A b c u l s true).result = (lprog E A b c u l s false).result ∧
    (lprog E A b c u l s true).trace.filter (fun e => !e.isDiagnostic)
      = (lprog E A b c u l s false).trace.filter (fun e => !e.isDiagnostic) ∧
    (mip E A b c u l vt s true).result = (mip E A b c u l vt s false).result ∧
    (mip E A b c u l vt s true).trace.filter (fun e => !e.isDiagnostic)
      = (mip E A b c u l vt s false).trace.filter (fun e => !e.isDiagnostic) :=
  ⟨(lprog_quiet E A b c u l s).1, (lprog_quiet E A b c u l s).2,
    (mip_quiet E A b c u l vt s).1, (mip_quiet E A b c u l vt s).2⟩

/-- Claim C5: on a well-shaped R-by-C matrix the dense-to-sparse
translation used by both façades yields exactly R constraint lists; the
j-th is the full index list 0..C-1 paired with row j, so each zipped
coefficient list has exactly C pairs `(i, A[j][i])`, zeros included. -/
theorem claim5_translator_exact (A : List (List ℚ)) (r0 : List ℚ)
    (rest : List (List ℚ)) (hA : A = r0 :: rest)
    (hrect : ∀ row ∈ A, row.length = r0.length) :
    (denseToSparse A r0.length).length = A.length ∧
    (∀ j, j < A.length →
      (denseToSparse A r0.length).getD j ([], []) = (List.range r0.length, A.getD j []) ∧
      (((denseToSparse A r0.length).getD j ([], [])).1.zip
          ((denseToSparse A r0.length).getD j ([], [])).2).length = r0.length ∧
      ((denseToSparse A r0.length).getD j ([], [])).1.zip
          ((denseToSparse A r0.length).getD j ([], [])).2
        = (List.range r0.length).map (fun i => (i, (A.getD j []).getD i 0))) ∧
    (∀ b c u l, (lprogModel A b c u l).linExpr = denseToSparse A r0.length) ∧
    (∀ b c u l vt, (mipModel A b c u l vt).linExpr = denseToSparse A r0.length) := by
  subst hA
  refine ⟨length_denseToSparse _ _, ?_, fun b c u l => rfl, fun b c u l vt => rfl⟩
  intro j hj
  have hAj : ((r0 :: rest) : List (List ℚ)).getD j [] = (r0 :: rest).get ⟨j, hj⟩ := by
    rw [List.getD_eq_getElem?_getD, List.getElem?_eq_getElem hj]
    rfl
  have hgd : (denseToSparse (r0 :: rest) r0.length).getD j ([], [])
      = (List.range r0.length, (r0 :: rest).getD j []) := by
    rw [List.getD_eq_getElem?_getD]
    unfold denseToSparse
    rw [List.getElem?_map, List.getElem?_eq_getElem hj]
    rw [hAj]
    rfl
  have hlen : ((r0 :: rest).getD j []).length = r0.length := by
    rw [hAj]
    exact hrect _ (List.get_mem _ _ _)
  refine ⟨hgd, ?_, ?_⟩
  · rw [hgd]
    rw [List.length_zip, List.length_range, hlen, min_self]
  · rw [hgd]
    exact zip_range_eq _ _ hlen

/-- Claim C5 witness: a concrete 2x2 matrix containing zero entries
discharges the hypotheses of the translator theorem. -/
theorem claim5_witness :
    (∀ row ∈ ([[0, 2], [3, 0]] : List (List ℚ)), row.length = [(0 : ℚ), 2].length) ∧
    ((denseToSparse [[0, 2], [3, 0]] [(0 : ℚ), 2].length).length
        = ([[0, 2], [3, 0]] : List (List ℚ)).length ∧
      (∀ j, j < ([[0, 2], [3, 0]] : List (List ℚ)).length →
        (denseToSparse [[0, 2], [3, 0]] [(0 : ℚ), 2].length).getD j ([], [])
          = (List.range [(0 : ℚ), 2].length,
              ([[0, 2], [3, 0]] : List (List ℚ)).getD j []) ∧
        (((denseToSparse [[0, 2], [3, 0]] [(0 : ℚ), 2].length).getD j ([], [])).1.zip
            ((denseToSparse [[0, 2], [3, 0]] [(0 : ℚ), 2].length).getD j ([], [])).2).length
          = [(0 : ℚ), 2].length ∧
        ((denseToSparse [[0, 2], [3, 0]] [(0 : ℚ), 2].length).getD j ([], [])).1.zip
            ((denseToSparse [[0, 2], [3, 0]] [(0 : ℚ), 2].length).getD j ([], [])).2
          = (List.range [(0 : ℚ), 2].length).map
              (fun i => (i, (([[0, 2], [3, 0]] : List (List ℚ)).getD j []).getD i 0))) ∧
      (∀ b c u l, (lprogModel [[0, 2], [3, 0]] b c u l).linExpr
          = denseToSparse [[0, 2], [3, 0]] [(0 : ℚ), 2].length) ∧
      (∀ b c u l vt, (mipModel [[0, 2], [3, 0]] b c u l vt).linExpr
          = denseToSparse [[0, 2], [3, 0]] [(0 : ℚ), 2].length)) :=
  ⟨by decide,
    claim5_translator_exact [[0, 2], [3, 0]] [0, 2] [[3, 0]] rfl (by decide)⟩

/-- Claim C6: any model either façade hands to the engine's solve call
has objective sense maximize and exactly one "≤" sense per constraint;
no input can produce anything else. -/
theorem claim6_always_max_le (E : Engine) (A : List (List ℚ)) (b c u l : List ℚ)
    (vt : List Char) (s q : Bool) (m : Model) :
    (Event.solveCall m ∈ (lprog E A b c u l s q).trace →
      m.maximize = true ∧ m.senses.length = m.linExpr.length ∧
        ∀ ch ∈ m.senses, ch = 'L') ∧
    (Event.solveCall m ∈ (mip E A b c u l vt s q).trace →
      m.maximize = true ∧ m.senses.length = m.linExpr.length ∧
        ∀ ch ∈ m.senses, ch = 'L') := by
  constructor
  · intro hmem
    rcases A with _ | ⟨r0, rest⟩
    · simp [lprog_nil] at hmem
    · rcases hv : varsAddExn c u l none (colnamesOf r0.length) with _ | e
      · rcases hl : linConsExn (lprogModel (r0 :: rest) b c u l).linExpr
            (lprogModel (r0 :: rest) b c u l).senses b with _ | e
        · rw [lprog_dispatch E r0 rest b c u l s q hv hl] at hmem
          obtain rfl := dispatch_solveCall_mem E _ _ _ s q m hmem
          refine ⟨rfl, ?_, ?_⟩
          · simp [lprogModel, joinSenses, sensesArg, denseToSparse]
          · intro ch hch
            rw [senses_lprogModel] at hch
            exact (List.eq_of_mem_replicate hch)
        · rw [lprog_raise_lincons E r0 rest b c u l s q e hv hl] at hmem
          simp at hmem
      · rw [lprog_raise_vars E r0 rest b c u l s q e hv] at hmem
        simp at hmem
  · intro hmem
    rcases A with _ | ⟨r0, rest⟩
    · simp [mip_nil] at hmem
    · rcases hv : varsAddExn c u l (some vt) (colnamesOf r0.length) with _ | e
      · rcases hl : linConsExn (mipModel (r0 :: rest) b c u l vt).linExpr
            (mipModel (r0 :: rest) b c u l vt).senses b with _ | e
        · rw [mip_dispatch E r0 rest b c u l vt s q hv hl] at hmem
          obtain rfl := dispatch_solveCall_mem E _ _ _ s q m hmem
          refine ⟨rfl, ?_, ?_⟩
          · simp [mipModel, lprogModel, joinSenses, sensesArg, denseToSparse]
          · intro ch hch
            simp only [mipModel, lprogModel, joinSenses, sensesArg,
              List.flatten, List.append_nil] at hch
            exact (List.eq_of_mem_replicate hch)
        · rw [mip_raise_lincons E r0 rest b c u l vt s q e hv hl] at hmem
          simp at hmem
      · rw [mip_raise_vars E r0 rest b c u l vt s q e hv] at hmem
        simp at hmem

/-- Claim C6 witness: a concrete run whose trace contains the solve
call, discharging the membership hypothesis. -/
theorem claim6_witness :
    Event.solveCall (lprogModel [[1]] [1] [1] [1] [0])
        ∈ (lprog trivEngine [[1]] [1] [1] [1] [0] false false).trace ∧
    ((lprogModel [[1]] [1] [1] [1] [0]).maximize = true ∧
      (lprogModel [[1]] [1] [1] [1] [0]).senses.length
        = (lprogModel [[1]] [1] [1] [1] [0]).linExpr.length ∧
      ∀ ch ∈ (lprogModel [[1]] [1] [1] [1] [0]).senses, ch = 'L') :=
  ⟨by decide,
    (claim6_always_max_le trivEngine [[1]] [1] [1] [1] [0] ['C'] false false
      (lprogModel [[1]] [1] [1] [1] [0])).1 (by decide)⟩

/-- Claim C2: on any well-shaped input whose model the engine reports
infeasible (by raising `CplexError`), both façades return exactly the
sentinel `([], -1)` and raise nothing to the caller. -/
theorem claim2_infeasible_sentinel (E : Engine) (A : List (List ℚ))
    (b c u l : List ℚ) (vt : List Char) (s q : Bool)
    (r0 : List ℚ) (rest : List (List ℚ)) (hA : A = r0 :: rest)
    (hsh : Shaped A b c u l) (htg : TagsOk vt r0.length)
    (h1 : E.InfeasSignal (lprogModel A b c u l))
    (h2 : E.InfeasSignal (mipModel A b c u l vt)) :
    (lprog E A b c u l s q).result = .ok ([], -1) ∧
    (mip E A b c u l vt s q).result = .ok ([], -1) := by
  obtain ⟨hv1, hl1⟩ := checks_of_shaped A b c u l r0 rest hA hsh
  obtain ⟨hv2, hl2⟩ := checks_of_shaped_tags A b c u l vt r0 rest hA hsh htg
  subst hA
  constructor
  · rw [lprog_dispatch E r0 rest b c u l s q hv1 hl1]
    rcases h1 with ⟨hse, hso⟩ | ⟨msg, hse⟩
    · exact dispatch_sentinel_nosol E _ _ _ s q hse hso
    · exact dispatch_sentinel_cplex E _ _ _ s q msg hse
  · rw [mip_dispatch E r0 rest b c u l vt s q hv2 hl2]
    rcases h2 with ⟨hse, hso⟩ | ⟨msg, hse⟩
    · exact dispatch_sentinel_nosol E _ _ _ s q hse hso
    · exact dispatch_sentinel_cplex E _ _ _ s q msg hse

/-- Claim C2 witness: with the concrete engine that has no solution for
any model, a well-shaped input yields the `([], -1)` sentinel from both
façades. -/
theorem claim2_witness :
    Shaped [[1]] [1] [1] [1] [0] ∧ TagsOk ['C'] [(1 : ℚ)].length ∧
    ((lprog trivEngine [[1]] [1] [1] [1] [0] false false).result = .ok ([], -1) ∧
      (mip trivEngine [[1]] [1] [1] [1] [0] ['C'] false false).result = .ok ([], -1)) :=
  ⟨by decide, by decide,
    claim2_infeasible_sentinel trivEngine [[1]] [1] [1] [1] [0] ['C'] false false
      [1] [] rfl (by decide) (by decide) (Or.inl ⟨rfl, rfl⟩) (Or.inl ⟨rfl, rfl⟩)⟩

/-- Claim C3: on a well-shaped input, once the engine's solve call
returns without throwing, the model file is written under the fixed
façade-specific name with the persist flag set — even when the call goes
on to return the `([], -1)` sentinel — and no file is ever written with
the persist flag unset. -/
theorem claim3_persist_write (E : Engine) (A : List (List ℚ)) (b c u l : List ℚ)
    (vt : List Char) (q : Bool) (r0 : List ℚ) (rest : List (List ℚ))
    (hA : A = r0 :: rest) (hsh : Shaped A b c u l) (htg : TagsOk vt r0.length) :
    (E.solveExn (lprogModel A b c u l) = none →
      Event.fileWrite "lprog.lp" ∈ (lprog E A b c u l true q).trace ∧
      (E.solution (lprogModel A b c u l) = none →
        (lprog E A b c u l true q).result = .ok ([], -1))) ∧
    (∀ f, Event.fileWrite f ∉ (lprog E A b c u l false q).trace) ∧
    (E.solveExn (mipModel A b c u l vt) = none →
      Event.fileWrite "mip.lp" ∈ (mip E A b c u l vt true q).trace ∧
      (E.solution (mipModel A b c u l vt) = none →
        (mip E A b c u l vt true q).result = .ok ([], -1))) ∧
    (∀ f, Event.fileWrite f ∉ (mip E A b c u l vt false q).trace) := by
  obtain ⟨hv1, hl1⟩ := checks_of_shaped A b c u l r0 rest hA hsh
  obtain ⟨hv2, hl2⟩ := checks_of_shaped_tags A b c u l vt r0 rest hA hsh htg
  subst hA
  refine ⟨?_, ?_, ?_, ?_⟩
  · intro hse
    rw [lprog_dispatch E r0 rest b c u l true q hv1 hl1]
    exact ⟨dispatch_write E _ _ _ q hse,
      fun hso => dispatch_sentinel_nosol E _ _ _ true q hse hso⟩
  · intro f
    rw [lprog_dispatch E r0 rest b c u l false q hv1 hl1]
    exact dispatch_no_write E _ _ _ q f
  · intro hse
    rw [mip_dispatch E r0 rest b c u l vt true q hv2 hl2]
    exact ⟨dispatch_write E _ _ _ q hse,
      fun hso => dispatch_sentinel_nosol E _ _ _ true q hse hso⟩
  · intro f
    rw [mip_dispatch E r0 rest b c u l vt false q hv2 hl2]
    exact dispatch_no_write E _ _ _ q f

/-- Claim C3 witness: a concrete run where the solve returns, the
solution is missing, and the file-write event is nevertheless present. -/
theorem claim3_witness :
    Shaped [[1]] [1] [1] [1] [0] ∧ TagsOk ['C'] [(1 : ℚ)].length ∧
    ((trivEngine.solveExn (lprogModel [[1]] [1] [1] [1] [0]) = none →
      Event.fileWrite "lprog.lp" ∈ (lprog trivEngine [[1]] [1] [1] [1] [0] true false).trace ∧
      (trivEngine.solution (lprogModel [[1]] [1] [1] [1] [0]) = none →
        (lprog trivEngine [[1]] [1] [1] [1] [0] true false).result = .ok ([], -1))) ∧
    (∀ f, Event.fileWrite f ∉ (lprog trivEngine [[1]] [1] [1] [1] [0] false false).trace) ∧
    (trivEngine.solveExn (mipModel [[1]] [1] [1] [1] [0] ['C']) = none →
      Event.fileWrite "mip.lp" ∈ (mip trivEngine [[1]] [1] [1] [1] [0] ['C'] true false).trace ∧
      (trivEngine.solution (mipModel [[1]] [1] [1] [1] [0] ['C']) = none →
        (mip trivEngine [[1]] [1] [1] [1] [0] ['C'] true false).result = .ok ([], -1))) ∧
    (∀ f, Event.fileWrite f ∉ (mip trivEngine [[1]] [1] [1] [1] [0] ['C'] false false).trace)) :=
  ⟨by decide, by decide,
    claim3_persist_write trivEngine [[1]] [1] [1] [1] [0] ['C'] false
      [1] [] rfl (by decide) (by decide)⟩

/-- Claim C9: only an exception of the `CplexError` class raised inside
the try block is converted to the `([], -1)` sentinel; any other
exception from the solve call propagates uncaught, and the validation
exceptions of the model-building phase propagate uncaught before any
effect because the try block has not been entered. -/
theorem claim9_only_cplex_caught (E : Engine) (A : List (List ℚ))
    (b c u l : List ℚ) (vt : List Char) (s q : Bool)
    (r0 : List ℚ) (rest : List (List ℚ)) (hA : A = r0 :: rest) :
    (∀ e, Shaped A b c u l → E.solveExn (lprogModel A b c u l) = some e →
      (lprog E A b c u l s q).result
        = (if e.isCplexError then .ok ([], -1) else .raise e)) ∧
    (¬ Shaped A b c u l →
      ∃ e, (lprog E A b c u l s q).result = .raise e ∧
        (lprog E A b c u l s q).trace = []) ∧
    (∀ e, Shaped A b c u l → TagsOk vt r0.length →
      E.solveExn (mipModel A b c u l vt) = some e →
      (mip E A b c u l vt s q).result
        = (if e.isCplexError then .ok ([], -1) else .raise e)) ∧
    (¬ (Shaped A b c u l ∧ TagsOk vt r0.length) →
      ∃ e, (mip E A b c u l vt s q).result = .raise e ∧
        (mip E A b c u l vt s q).trace = []) := by
  refine ⟨?_, ?_, ?_, ?_⟩
  · intro e hsh hse
    obtain ⟨hv, hl⟩ := checks_of_shaped A b c u l r0 rest hA hsh
    subst hA
    rw [lprog_dispatch E r0 rest b c u l s q hv hl]
    exact dispatch_solve_raises E _ _ _ s q e hse
  · intro hmis
    obtain ⟨msg, h⟩ := lprog_not_shaped E A b c u l s q r0 rest hA hmis
    exact ⟨.cplexError msg, by rw [h], by rw [h]⟩
  · intro e hsh htg hse
    obtain ⟨hv, hl⟩ := checks_of_shaped_tags A b c u l vt r0 rest hA hsh htg
    subst hA
    rw [mip_dispatch E r0 rest b c u l vt s q hv hl]
    exact dispatch_solve_raises E _ _ _ s q e hse
  · intro hbad
    obtain ⟨msg, h⟩ := mip_not_ok E A b c u l vt s q r0 rest hA hbad
    exact ⟨.cplexError msg, by rw [h], by rw [h]⟩

/-- An engine whose solve call raises a non-`CplexError` exception, used
to witness the propagation half of claim C9. -/
def raiseEngine : Engine where
  solveExn := fun _ => some .indexError
  solution := fun _ => none

/-- Claim C9 witness: a non-`CplexError` exception thrown by the solve
call propagates uncaught through both façades. -/
theorem claim9_witness :
    Shaped [[1]] [1] [1] [1] [0] ∧
    raiseEngine.solveExn (lprogModel [[1]] [1] [1] [1] [0]) = some .indexError ∧
    (lprog raiseEngine [[1]] [1] [1] [1] [0] false false).result
      = (if Exn.indexError.isCplexError then .ok ([], -1) else .raise .indexError) :=
  ⟨by decide, rfl,
    (claim9_only_cplex_caught raiseEngine [[1]] [1] [1] [1] [0] ['C'] false false
      [1] [] rfl).1 .indexError (by decide) rfl⟩

/-- Claim C8: on a well-shaped input whose model is feasible and bounded,
with an engine conforming to the spec's black-box contract, both façades
return one value per variable (length C, variable order) and an
objective equal to `sum(c[i] * values[i])` — exactly, hence within the
1e-6 relative tolerance. -/
theorem claim8_feasible_result (E : Engine) (A : List (List ℚ)) (b c u l : List ℚ)
    (vt : List Char) (s q : Bool) (r0 : List ℚ) (rest : List (List ℚ))
    (hA : A = r0 :: rest) (hsh : Shaped A b c u l) (htg : TagsOk vt r0.length)
    (hf1 : Feasible (lprogModel A b c u l))
    (hb1 : BoundedAboveObj (lprogModel A b c u l))
    (hc1 : E.ConformsAt (lprogModel A b c u l))
    (hf2 : Feasible (mipModel A b c u l vt))
    (hb2 : BoundedAboveObj (mipModel A b c u l vt))
    (hc2 : E.ConformsAt (mipModel A b c u l vt)) :
    (∃ xs obj, (lprog E A b c u l s q).result = .ok (xs, obj) ∧
      xs.length = r0.length ∧ obj = dot c xs ∧
      |obj - dot c xs| ≤ 1 / 1000000 * |dot c xs|) ∧
    (∃ xs obj, (mip E A b c u l vt s q).result = .ok (xs, obj) ∧
      xs.length = r0.length ∧ obj = dot c xs ∧
      |obj - dot c xs| ≤ 1 / 1000000 * |dot c xs|) := by
  obtain ⟨hv1, hl1⟩ := checks_of_shaped A b c u l r0 rest hA hsh
  obtain ⟨hv2, hl2⟩ := checks_of_shaped_tags A b c u l vt r0 rest hA hsh htg
  obtain ⟨hse1, xs1, obj1, hso1, hxlen1, hobj1⟩ := hc1 hf1 hb1
  obtain ⟨hse2, xs2, obj2, hso2, hxlen2, hobj2⟩ := hc2 hf2 hb2
  have hclen : c.length = r0.length := by
    have := hsh.2.2.1
    rw [hA] at this
    simpa using this
  subst hA
  have hd1 : obj1 = dot c xs1 := hobj1
  have hd2 : obj2 = dot c xs2 := hobj2
  constructor
  · refine ⟨xs1, obj1, ?_, ?_, hd1, ?_⟩
    · rw [lprog_dispatch E r0 rest b c u l s q hv1 hl1]
      exact dispatch_ok E _ _ _ s q xs1 obj1 hse1 hso1
    · rw [hxlen1]
      exact hclen
    · rw [hd1, sub_self, abs_zero]
      positivity
  · refine ⟨xs2, obj2, ?_, ?_, hd2, ?_⟩
    · rw [mip_dispatch E r0 rest b c u l vt s q hv2 hl2]
      exact dispatch_ok E _ _ _ s q xs2 obj2 hse2 hso2
    · rw [hxlen2]
      exact hclen
    · rw [hd2, sub_self, abs_zero]
      positivity

/-- An engine that always reports the solution `([5], 5)`, used to
witness claim C8 on the 1x1 model of the matrix `[[1]]`. -/
def constEngine : Engine where
  solveExn := fun _ => none
  solution := fun _ => some ([5], 5)

/-- The assignment `[0]` is feasible for the witness model
`max x0, x0 <= 5, 0 <= x0 <= 10`. -/
theorem exModel_feas : FeasPoint (lprogModel [[1]] [5] [1] [10] [0]) [0] := by
  refine ⟨rfl, ?_, ?_⟩
  · intro i hi
    have hi0 : i = 0 := Nat.lt_one_iff.mp (by simpa using hi)
    subst hi0
    norm_num [lprogModel, List.getD]
  · intro j hj
    have hj0 : j = 0 := Nat.lt_one_iff.mp (by simpa [lprogModel, denseToSparse] using hj)
    subst hj0
    norm_num [lprogModel, denseToSparse, sparseDot, List.getD]

/-- The same assignment is feasible for the mip variant of the witness
model. -/
theorem exModel_feas_mip : FeasPoint (mipModel [[1]] [5] [1] [10] [0] ['C']) [0] := by
  refine ⟨rfl, ?_, ?_⟩
  · intro i hi
    have hi0 : i = 0 := Nat.lt_one_iff.mp (by simpa using hi)
    subst hi0
    norm_num [mipModel, lprogModel, List.getD]
  · intro j hj
    have hj0 : j = 0 := Nat.lt_one_iff.mp
      (by simpa [mipModel, lprogModel, denseToSparse] using hj)
    subst hj0
    norm_num [mipModel, lprogModel, denseToSparse, sparseDot, List.getD]

/-- Objective value of the solution the constant engine reports on the
witness model. -/
theorem exDot : dot (lprogModel [[1]] [5] [1] [10] [0]).obj [5] = 5 := by
  norm_num [dot, lprogModel]

/-- The witness model is bounded above by 5 on its feasible set. -/
theorem exModel_bounded : BoundedAboveObj (lprogModel [[1]] [5] [1] [10] [0]) := by
  refine ⟨5, ?_⟩
  rintro xs ⟨hlen, -, hcon⟩
  obtain ⟨x, rfl⟩ := List.length_eq_one.mp (by simpa [lprogModel] using hlen)
  have h2 := hcon 0 (by simp [lprogModel, denseToSparse])
  have hx : (lprogModel [[1]] [5] [1] [10] [0]).linExpr.getD 0 ([], [])
      = ([0], [1]) := rfl
  have hr : (lprogModel [[1]] [5] [1] [10] [0]).rhs.getD 0 0 = 5 := rfl
  rw [hx, hr] at h2
  have hs : sparseDot ([0], [1]) [x] = 1 * x + 0 := rfl
  rw [hs] at h2
  have hd : dot (lprogModel [[1]] [5] [1] [10] [0]).obj [x] = 1 * x + 0 := rfl
  rw [hd]
  linarith

/-- The same bound for the mip variant of the witness model. -/
theorem exModel_bounded_mip :
    BoundedAboveObj (mipModel [[1]] [5] [1] [10] [0] ['C']) := by
  refine ⟨5, ?_⟩
  rintro xs ⟨hlen, -, hcon⟩
  obtain ⟨x, rfl⟩ := List.length_eq_one.mp (by simpa [mipModel, lprogModel] using hlen)
  have h2 := hcon 0 (by simp [mipModel, lprogModel, denseToSparse])
  have hx : (mipModel [[1]] [5] [1] [10] [0] ['C']).linExpr.getD 0 ([], [])
      = ([0], [1]) := rfl
  have hr : (mipModel [[1]] [5] [1] [10] [0] ['C']).rhs.getD 0 0 = 5 := rfl
  rw [hx, hr] at h2
  have hs : sparseDot ([0], [1]) [x] = 1 * x + 0 := rfl
  rw [hs] at h2
  have hd : dot (mipModel [[1]] [5] [1] [10] [0] ['C']).obj [x] = 1 * x + 0 := rfl
  rw [hd]
  linarith

/-- Claim C8 witness: the feasible bounded model `max x0, x0 ≤ 5,
0 ≤ x0 ≤ 10` with a conforming engine yields `([5], 5)` from both
façades. -/
theorem claim8_witness :
    Shaped [[1]] [5] [1] [10] [0] ∧
    Feasible (lprogModel [[1]] [5] [1] [10] [0]) ∧
    BoundedAboveObj (lprogModel [[1]] [5] [1] [10] [0]) ∧
    constEngine.ConformsAt (lprogModel [[1]] [5] [1] [10] [0]) ∧
    ((∃ xs obj,
        (lprog constEngine [[1]] [5] [1] [10] [0] false false).result = .ok (xs, obj) ∧
        xs.length = [(1 : ℚ)].length ∧ obj = dot [1] xs ∧
        |obj - dot [1] xs| ≤ 1 / 1000000 * |dot [1] xs|) ∧
      (∃ xs obj,
        (mip constEngine [[1]] [5] [1] [10] [0] ['C'] false false).result = .ok (xs, obj) ∧
        xs.length = [(1 : ℚ)].length ∧ obj = dot [1] xs ∧
        |obj - dot [1] xs| ≤ 1 / 1000000 * |dot [1] xs|)) :=
  ⟨by decide, ⟨[0], exModel_feas⟩, exModel_bounded,
    fun _ _ => ⟨rfl, [5], 5, rfl, rfl, exDot.symm⟩,
    claim8_feasible_result constEngine [[1]] [5] [1] [10] [0] ['C'] false false
      [1] [] rfl (by decide) (by decide)
      ⟨[0], exModel_feas⟩ exModel_bounded
      (fun _ _ => ⟨rfl, [5], 5, rfl, rfl, exDot.symm⟩)
      ⟨[0], exModel_feas_mip⟩ exModel_bounded_mip
      (fun _ _ => ⟨rfl, [5], 5, rfl, rfl, exDot.symm⟩)⟩
